import Mathlib

/-!
# Verification of the terminal repository's command-line pipeline

Shallow embedding of the repository's core components:
the virtual file system (`VirtualFileSystem` in the source), the command
processor (tokenizer, input parser, registry, dispatcher) and the bash
script interpreter (`BashInterpreter`).

Modelling conventions:
* JS strings are modelled as `List Char`; `str` converts a Lean string
  literal to that representation.
* JS `Map` objects are modelled as association lists with `Map.set`
  semantics (`setA`): an existing key is updated in place, a new key is
  appended, preserving insertion order.
* In-place mutation of a tree node found by a path walk is modelled as a
  functional update of the tree at that path (`modifyAtParts`).
* `Date` timestamp fields (`created`, `modified`) are cosmetic in the
  source and are not modelled.
* `localStorage` persistence (`saveToStorage` / `loadFromStorage`) is
  modelled as absent stored data: the constructor keeps the seeded
  default structure.
* `String.prototype.localeCompare` is modelled as code-point
  (case-sensitive lexicographic) comparison.
* `Array.prototype.sort` (stable, comparator-based) is modelled as a
  stable insertion sort with "a before b iff comparator a b ≤ 0".
-/

/-- Convert a Lean string literal to the `List Char` representation used for
JS strings throughout this development. -/
def str (s : String) : List Char := s.data

/-- JS `String.prototype.split` with a single-character separator:
`"".split(c) = [""]`, separators delimit (possibly empty) fields. -/
def splitOnChar (sep : Char) : List Char → List (List Char)
  | [] => [[]]
  | c :: rest =>
    let r := splitOnChar sep rest
    if c = sep then [] :: r
    else
      match r with
      | [] => [[c]]
      | h :: t => (c :: h) :: t

/-- First-match association-list lookup (JS `Map.get`, `null` as `none`). -/
def lookupA {β : Type} : List (List Char × β) → List Char → Option β
  | [], _ => none
  | (k, v) :: rest, key => if k = key then some v else lookupA rest key

/-- JS `Map.set`: update an existing key in place, else append. -/
def setA {β : Type} : List (List Char × β) → List Char → β → List (List Char × β)
  | [], key, val => [(key, val)]
  | (k, v) :: rest, key, val =>
    if k = key then (key, val) :: rest else (k, v) :: setA rest key val

/-- JS `Map.delete`: remove the entry with the given key (first match). -/
def delA {β : Type} : List (List Char × β) → List Char → List (List Char × β)
  | [], _ => []
  | (k, v) :: rest, key => if k = key then rest else (k, v) :: delA rest key

/-- JS `String.prototype.trim` (whitespace from both ends). -/
def trimL (l : List Char) : List Char :=
  ((l.dropWhile Char.isWhitespace).reverse.dropWhile Char.isWhitespace).reverse

/-- JS `String.prototype.toLowerCase` (ASCII case folding suffices here). -/
def toLower (l : List Char) : List Char := l.map Char.toLower

/-- `IFileSystemNode`: a file or directory of the virtual tree. In the
source `children` is present exactly on directories and `content` is only
ever read on files (directory nodes carry `content: ''`, never read), so
the two variants carry exactly the meaningful fields. Timestamps are not
modelled. -/
inductive FSNode where
  | file (name content permissions : List Char) (size : Nat)
  | dir (name permissions : List Char) (children : List (List Char × FSNode))

/-- `node.name`. -/
def FSNode.name : FSNode → List Char
  | .file n _ _ _ => n
  | .dir n _ _ => n

/-- `node.type === 'directory'`. -/
def FSNode.isDir : FSNode → Bool
  | .file _ _ _ _ => false
  | .dir _ _ _ => true

/-- `node.permissions`. -/
def FSNode.permissions : FSNode → List Char
  | .file _ _ p _ => p
  | .dir _ p _ => p

/-- `node.size` (0 for directories, as in the source). -/
def FSNode.size : FSNode → Nat
  | .file _ _ _ s => s
  | .dir _ _ _ => 0

/-- `'file' | 'directory'` tag used by `createNode`. -/
inductive NodeType where
  | file
  | directory
deriving DecidableEq, Repr

/-- `VirtualFileSystem.createNode(name, type, content?)`; callers that omit
`content` pass `[]` (the source's `content || ''`). -/
def createNode (name : List Char) (t : NodeType) (content : List Char) : FSNode :=
  match t with
  | .file => .file name content (str "rw-r--r--") content.length
  | .directory => .dir name (str "rwxr-xr-x") []

/-- `VirtualFileSystem.createInitialStructure()`: the seeded tree, children
in insertion order. -/
def createInitialStructure : FSNode :=
  let documents := createNode (str "Documents") .directory []
  let downloads := createNode (str "Downloads") .directory []
  let pictures := createNode (str "Pictures") .directory []
  let videos := createNode (str "Videos") .directory []
  let readme := createNode (str "readme.txt") .file
    (str "Welcome to H-Terminal!\nThis is a virtual file system.")
  let script := createNode (str "script.sh") .file
    (str "#!/bin/bash\necho \"Hello World!\"")
  let user := FSNode.dir (str "user") (str "rwxr-xr-x")
    [(str "Documents", documents), (str "Downloads", downloads),
     (str "Pictures", pictures), (str "Videos", videos),
     (str "readme.txt", readme), (str "script.sh", script)]
  let home := FSNode.dir (str "home") (str "rwxr-xr-x") [(str "user", user)]
  FSNode.dir [] (str "rwxr-xr-x") [(str "home", home)]

/-- The `VirtualFileSystem` class state: tree root, current path (stored in
`~`-display form when applicable) and the home directory. -/
structure VirtualFileSystem where
  root : FSNode
  currentPath : List Char
  homeDirectory : List Char

/-- `new VirtualFileSystem('/home/user')` with no stored data to load. -/
def initialVFS : VirtualFileSystem :=
  { root := createInitialStructure, currentPath := str "~",
    homeDirectory := str "/home/user" }

namespace VirtualFileSystem

/-- `getCurrentDirectory()`. -/
def getCurrentDirectory (s : VirtualFileSystem) : List Char := s.currentPath

/-- `getAbsolutePath(path)`. -/
def getAbsolutePath (s : VirtualFileSystem) (path : List Char) : List Char :=
  if path = str "~" then s.homeDirectory
  else if (str "~/").isPrefixOf path then s.homeDirectory ++ path.drop 1
  else if (str "/").isPrefixOf path then path
  else s.homeDirectory ++ str "/" ++ path

/-- `absolutePath.split('/').filter(p => p)`. -/
def pathParts (p : List Char) : List (List Char) :=
  (splitOnChar '/' p).filter (fun seg => seg ≠ [])

/-- `resolvePath(path)`. -/
def resolvePath (s : VirtualFileSystem) (path : List Char) : List Char :=
  if path = str "~" then s.homeDirectory
  else if (str "~/").isPrefixOf path then s.homeDirectory ++ path.drop 1
  else if (str "/").isPrefixOf path then path
  else
    let currentAbsolute := s.getAbsolutePath s.currentPath
    if path = str "." then currentAbsolute
    else if path = str ".." then
      str "/" ++ List.intercalate (str "/") (pathParts currentAbsolute).dropLast
    else if (str "../").isPrefixOf path then
      let finalParts := (splitOnChar '/' path).foldl
        (fun acc part =>
          if part = str ".." then acc.dropLast
          else if part ≠ str "." then acc ++ [part]
          else acc)
        (pathParts currentAbsolute)
      str "/" ++ List.intercalate (str "/") finalParts
    else
      currentAbsolute ++
        (if currentAbsolute.getLast? = some '/' then [] else str "/") ++ path

/-- The walk inside `getNodeByPath`: descend by path segment through the
`children` maps. -/
def walkParts : List (List Char) → FSNode → Option FSNode
  | [], n => some n
  | part :: rest, n =>
    match n with
    | .file _ _ _ _ => none
    | .dir _ _ ch =>
      match lookupA ch part with
      | none => none
      | some child => walkParts rest child

/-- `getNodeByPath(absolutePath)`. -/
def getNodeByPath (root : FSNode) (absolutePath : List Char) : Option FSNode :=
  if absolutePath = str "/" then some root
  else walkParts (pathParts absolutePath) root

/-- `getCurrentDirectoryNode()`. -/
def getCurrentDirectoryNode (s : VirtualFileSystem) : Option FSNode :=
  getNodeByPath s.root (s.getAbsolutePath s.currentPath)

/-- The segment list of the current directory's absolute path (the path at
which the source mutates the current directory node in place). -/
def curParts (s : VirtualFileSystem) : List (List Char) :=
  pathParts (s.getAbsolutePath s.currentPath)

/-- `normalizeDisplayPath(absolutePath)`. -/
def normalizeDisplayPath (s : VirtualFileSystem) (absolutePath : List Char) : List Char :=
  if absolutePath = s.homeDirectory then str "~"
  else if (s.homeDirectory ++ str "/").isPrefixOf absolutePath then
    str "~" ++ absolutePath.drop s.homeDirectory.length
  else absolutePath

/-- `setCurrentDirectory(path)`; returns the success flag and the updated
state (unchanged on failure). -/
def setCurrentDirectory (s : VirtualFileSystem) (path : List Char) :
    Bool × VirtualFileSystem :=
  let resolvedPath := s.resolvePath path
  match getNodeByPath s.root resolvedPath with
  | some (.dir _ _ _) =>
    (true, { s with currentPath := s.normalizeDisplayPath resolvedPath })
  | _ => (false, s)

/-- Functional update of the tree at a path: apply `f` to the node reached
by the segment list (identity where the path does not exist). This models
the source's in-place mutation of the node returned by a path walk. -/
def modifyAtParts (n : FSNode) (parts : List (List Char)) (f : FSNode → FSNode) : FSNode :=
  match parts with
  | [] => f n
  | p :: rest =>
    match n with
    | .file _ _ _ _ => n
    | .dir name perm ch =>
      .dir name perm
        (ch.map (fun e => if e.1 = p then (e.1, modifyAtParts e.2 rest f) else e))

/-- `currentNode.children.set(name, node)` as a node transformer (identity
on files, which the callers rule out). -/
def insertChild (name : List Char) (node : FSNode) : FSNode → FSNode
  | FSNode.dir dn dp ch => FSNode.dir dn dp (setA ch name node)
  | other => other

/-- `currentNode.children.delete(name)` as a node transformer. -/
def removeChild (name : List Char) : FSNode → FSNode
  | FSNode.dir dn dp ch => FSNode.dir dn dp (delA ch name)
  | other => other

/-- In-place file content/size update (`node.content = …; node.size = …`)
as a node transformer. -/
def updateFileContent (content : List Char) : FSNode → FSNode
  | FSNode.file fn _ fp _ => FSNode.file fn content fp content.length
  | other => other

/-- `getNode(path)`: slash paths resolve via `resolvePath`; a bare name is
looked up only as a direct child of the current directory. -/
def getNode (s : VirtualFileSystem) (path : List Char) : Option FSNode :=
  if path.contains '/' then getNodeByPath s.root (s.resolvePath path)
  else
    match s.getCurrentDirectoryNode with
    | some (.dir _ _ ch) => lookupA ch path
    | _ => none

/-- `exists(path)` (`exists` is reserved in Lean). -/
def exists' (s : VirtualFileSystem) (path : List Char) : Bool :=
  (s.getNode path).isSome

/-- `readFile(name)`: `null` when absent or not a file. -/
def readFile (s : VirtualFileSystem) (name : List Char) : Option (List Char) :=
  match s.getNode name with
  | some (.file _ content _ _) => some content
  | _ => none

/-- `createFile(name, content)`. -/
def createFile (s : VirtualFileSystem) (name content : List Char) :
    Bool × VirtualFileSystem :=
  if s.exists' name then (false, s)
  else
    match s.getCurrentDirectoryNode with
    | some (.dir _ _ _) =>
      let newRoot := modifyAtParts s.root s.curParts
        (insertChild name (createNode name .file content))
      (true, { s with root := newRoot })
    | _ => (false, s)

/-- `createDirectory(name)`. -/
def createDirectory (s : VirtualFileSystem) (name : List Char) :
    Bool × VirtualFileSystem :=
  if s.exists' name then (false, s)
  else
    match s.getCurrentDirectoryNode with
    | some (.dir _ _ _) =>
      let newRoot := modifyAtParts s.root s.curParts
        (insertChild name (createNode name .directory []))
      (true, { s with root := newRoot })
    | _ => (false, s)

/-- `node.type === 'directory' && node.children && node.children.size > 0`. -/
def nonEmptyDir : FSNode → Bool
  | .dir _ _ ch => !ch.isEmpty
  | .file _ _ _ _ => false

/-- `deleteNode(name, recursive)`. -/
def deleteNode (s : VirtualFileSystem) (name : List Char) (recursive : Bool) :
    Bool × VirtualFileSystem :=
  match s.getCurrentDirectoryNode with
  | some (.dir _ _ ch) =>
    match lookupA ch name with
    | none => (false, s)
    | some node =>
      if nonEmptyDir node && !recursive then (false, s)
      else
        let newRoot := modifyAtParts s.root s.curParts (removeChild name)
        (true, { s with root := newRoot })
  | _ => (false, s)

/-- `writeFile(name, content)`: overwrite an existing file in place, else
behave as `createFile`. -/
def writeFile (s : VirtualFileSystem) (name content : List Char) :
    Bool × VirtualFileSystem :=
  match s.getNode name with
  | some (.file _ _ _ _) =>
    let parts :=
      if name.contains '/' then pathParts (s.resolvePath name)
      else s.curParts ++ [name]
    let newRoot := modifyAtParts s.root parts (updateFileContent content)
    (true, { s with root := newRoot })
  | _ => s.createFile name content

/-- The source's `localeCompare`, modelled as code-point comparison:
negative / zero / positive as in JS. -/
def compareChars : List Char → List Char → Int
  | [], [] => 0
  | [], _ :: _ => -1
  | _ :: _, [] => 1
  | a :: as, b :: bs =>
    if a < b then -1 else if b < a then 1 else compareChars as bs

/-- The comparator passed to `sort` in `listDirectory`: directories first,
then `localeCompare` on names. -/
def listDirCompare (a b : FSNode) : Int :=
  if a.isDir ≠ b.isDir then (if a.isDir then -1 else 1)
  else compareChars a.name b.name

/-- "a sorts no later than b" for the `listDirectory` comparator. -/
def listDirLe (a b : FSNode) : Prop := listDirCompare a b ≤ 0

instance : DecidableRel listDirLe := fun a b => Int.decLe (listDirCompare a b) 0

/-- `path ? this.resolvePath(path) : this.getAbsolutePath(this.currentPath)`
in `listDirectory`: `none` models an omitted argument; an empty string is
falsy in JS and also falls back to the current directory. -/
def listTarget (s : VirtualFileSystem) (path : Option (List Char)) : List Char :=
  match path with
  | some p => if p ≠ [] then s.resolvePath p else s.getAbsolutePath s.currentPath
  | none => s.getAbsolutePath s.currentPath

/-- `listDirectory(path?)`. -/
def listDirectory (s : VirtualFileSystem) (path : Option (List Char)) : List FSNode :=
  match getNodeByPath s.root (s.listTarget path) with
  | some (.dir _ _ ch) => List.insertionSort listDirLe (ch.map Prod.snd)
  | _ => []

end VirtualFileSystem

/-- `true` / a string value, the codomain of the parsed flag map
(`Map<string, string | boolean>`; the source only ever stores `true`). -/
inductive FlagValue where
  | ofBool (b : Bool)
  | ofStr (v : List Char)
deriving DecidableEq, Repr

/-- Redirect mode: `'write' | 'append'`. -/
inductive RedirectMode where
  | write
  | append
deriving DecidableEq, Repr

/-- The record returned by `CommandProcessor.parseInput`. -/
structure ParsedInput where
  command : List Char
  args : List (List Char)
  flags : List (List Char × FlagValue)
  redirectToFile : Option (List Char)
  redirectMode : Option RedirectMode
deriving DecidableEq, Repr

namespace CommandProcessor

/-- The character scanner inside `CommandProcessor.tokenize`: current token
buffer, quote state (`none` models `inQuotes === false`) and pending-escape
flag. -/
def tokenizeAux : List Char → List Char → Option Char → Bool → List (List Char)
  | [], current, _, _ => if current.isEmpty then [] else [current]
  | c :: rest, current, quote, escaped =>
    if escaped then tokenizeAux rest (current ++ [c]) quote false
    else if c = '\\' then tokenizeAux rest current quote true
    else if quote.isNone ∧ (c = '"' ∨ c = '\'') then tokenizeAux rest current (some c) false
    else if quote = some c then tokenizeAux rest current none false
    else if quote.isNone ∧ c = ' ' then
      if current.isEmpty then tokenizeAux rest [] none false
      else current :: tokenizeAux rest [] none false
    else tokenizeAux rest (current ++ [c]) quote false

/-- `CommandProcessor.tokenize(input)`. -/
def tokenize (input : List Char) : List (List Char) :=
  tokenizeAux input [] none false

/-- The inner `for (j …)` loop over a short-flag group `-abc`: every
character is a boolean flag except the last, which takes `takeValue` as its
string value when the look-ahead succeeded. -/
def setShortFlags (flags : List (List Char × FlagValue)) (chars : List Char)
    (takeValue : Option (List Char)) : List (List Char × FlagValue) :=
  match chars with
  | [] => flags
  | [c] =>
    match takeValue with
    | some v => setA flags [c] (FlagValue.ofStr v)
    | none => setA flags [c] (FlagValue.ofBool true)
  | c :: rest => setShortFlags (setA flags [c] (FlagValue.ofBool true)) rest takeValue

/-- Accumulator of the token-classification loop (`args`, `flags`, redirect
target and mode). -/
structure ParseAcc where
  args : List (List Char)
  flags : List (List Char × FlagValue)
  redirectToFile : Option (List Char)
  redirectMode : Option RedirectMode
deriving DecidableEq, Repr

/-- The look-ahead test `i + 1 < tokens.length && !tokens[i + 1].startsWith('-')`
shared by the long-flag and short-flag value rules. -/
def lookAheadValue (rest : List (List Char)) : Bool :=
  match rest with
  | next :: _ => !(str "-").isPrefixOf next
  | [] => false

/-- The `for (i …) { i = processToken(…) }` loop of `parseInput`:
left-to-right classification with one-token look-ahead consumption
(`i++`). -/
def processTokens : List (List Char) → ParseAcc → ParseAcc
  | [], acc => acc
  | token :: rest, acc =>
    if token = str ">" ∨ token = str ">>" then
      let mode := if token = str ">>" then RedirectMode.append else RedirectMode.write
      match rest with
      | next :: rest' =>
        processTokens rest' { acc with redirectToFile := some next, redirectMode := some mode }
      | [] => acc
    else if (str "--").isPrefixOf token then
      if token.contains '=' then
        let eqIdx := (token.takeWhile (fun c => c ≠ '=')).length
        let flagName := (token.drop 2).take (eqIdx - 2)
        let flagValue := token.drop (eqIdx + 1)
        processTokens rest { acc with flags := setA acc.flags flagName (FlagValue.ofStr flagValue) }
      else
        let flagName := token.drop 2
        if lookAheadValue rest then
          match rest with
          | next :: rest' =>
            processTokens rest' { acc with flags := setA acc.flags flagName (FlagValue.ofStr next) }
          | [] => acc
        else
          processTokens rest { acc with flags := setA acc.flags flagName (FlagValue.ofBool true) }
    else if (str "-").isPrefixOf token ∧ token.length > 1 then
      let flagChars := token.drop 1
      if lookAheadValue rest then
        match rest with
        | next :: rest' =>
          processTokens rest' { acc with flags := setShortFlags acc.flags flagChars (some next) }
        | [] => acc
      else
        processTokens rest { acc with flags := setShortFlags acc.flags flagChars none }
    else processTokens rest { acc with args := acc.args ++ [token] }

/-- `CommandProcessor.parseInput(input)`, including the `./script` special
case. -/
def parseInput (input : List Char) : ParsedInput :=
  match tokenize input with
  | [] => ⟨[], [], [], none, none⟩
  | command :: rest =>
    if (str "./").isPrefixOf command ∧ command.length > 2 then
      let scriptName := command.drop 2
      let acc := processTokens rest ⟨[scriptName], [], none, none⟩
      ⟨str "./", acc.args, acc.flags, acc.redirectToFile, acc.redirectMode⟩
    else
      let acc := processTokens rest ⟨[], [], none, none⟩
      ⟨command, acc.args, acc.flags, acc.redirectToFile, acc.redirectMode⟩

end CommandProcessor

/-- `ICommandContext` (the `terminal` output sink is not consulted by the
dispatcher and is omitted). -/
structure CommandContext where
  args : List (List Char)
  flags : List (List Char × FlagValue)
  fileSystem : VirtualFileSystem
  environment : List (List Char × List Char)
  workingDirectory : List Char

/-- `ICommandResult`. -/
structure CommandResult where
  success : Bool
  output : Option (List (List Char))
  error : Option (List Char)
  exitCode : Int
deriving DecidableEq, Repr

/-- `ICommand`: a registered command descriptor. Handlers are modelled as
pure functions of the context (every handler used in this development is
pure in the source). -/
structure Command where
  name : List Char
  description : List Char
  usage : List Char
  aliases : List (List Char)
  execute : CommandContext → CommandResult

/-- The `CommandProcessor` registry state: the `commands` and `aliases`
maps. -/
structure CommandProcessor where
  commands : List (List Char × Command)
  aliases : List (List Char × List Char)

namespace CommandProcessor

/-- A freshly constructed `CommandProcessor` (both maps empty). -/
def emptyProcessor : CommandProcessor := ⟨[], []⟩

/-- JS `a || b` on a possibly-`undefined` string `a`: `b` when `a` is
`undefined` or the (falsy) empty string. -/
def jsOrStr (a : Option (List Char)) (b : List Char) : List Char :=
  match a with
  | some v => if v.isEmpty then b else v
  | none => b

/-- `registerCommand(command)`. -/
def registerCommand (cp : CommandProcessor) (command : Command) : CommandProcessor :=
  { commands := setA cp.commands (toLower command.name) command,
    aliases := command.aliases.foldl
      (fun m al => setA m (toLower al) (toLower command.name)) cp.aliases }

/-- `getCommand(name)`: alias resolution first, then the commands map. -/
def getCommand (cp : CommandProcessor) (name : List Char) : Option Command :=
  lookupA cp.commands (jsOrStr (lookupA cp.aliases (toLower name)) (toLower name))

/-- `writeToFile(fileSystem, filename, content)` (the `try` wrapper cannot
fire in the model: `writeFile` never throws). -/
def writeToFile (fs : VirtualFileSystem) (filename content : List Char) :
    Bool × VirtualFileSystem :=
  fs.writeFile filename content

/-- `appendToFile(fileSystem, filename, content)`. -/
def appendToFile (fs : VirtualFileSystem) (filename content : List Char) :
    Bool × VirtualFileSystem :=
  let existingContent := (fs.readFile filename).getD []
  let newContent :=
    existingContent ++ (if existingContent.isEmpty then [] else str "\n") ++ content
  fs.writeFile filename newContent

/-- `executeCommand(input, context)`: parse, alias-resolve, dispatch, then
apply redirection post-processing. Returns the result and the (possibly
redirect-mutated) file system. -/
def executeCommand (cp : CommandProcessor) (input : List Char)
    (fileSystem : VirtualFileSystem) (environment : List (List Char × List Char))
    (workingDirectory : List Char) : CommandResult × VirtualFileSystem :=
  if trimL input = [] then
    ({ success := true, output := none, error := none, exitCode := 0 }, fileSystem)
  else
    let p := parseInput input
    let actualCommandName := jsOrStr (lookupA cp.aliases (toLower p.command)) (toLower p.command)
    match lookupA cp.commands actualCommandName with
    | none =>
      ({ success := false, output := none,
         error := some (str "bash: " ++ p.command ++ str ": command not found"),
         exitCode := 127 }, fileSystem)
    | some targetCommand =>
      let result := targetCommand.execute
        ⟨p.args, p.flags, fileSystem, environment, workingDirectory⟩
      match p.redirectToFile, result.success, result.output with
      | some redirectFile, true, some out =>
        let content := List.intercalate (str "\n") out
        let wr :=
          if p.redirectMode = some RedirectMode.append then
            appendToFile fileSystem redirectFile content
          else writeToFile fileSystem redirectFile content
        if wr.1 then
          ({ success := true, output := none, error := none, exitCode := 0 }, wr.2)
        else
          ({ success := false, output := none,
             error := some (str "bash: " ++ redirectFile ++ str ": cannot redirect output"),
             exitCode := 1 }, wr.2)
      | _, _, _ => (result, fileSystem)

end CommandProcessor

/-- `EchoCommand` from `BasicCommands.ts`: joins its arguments with a space
and returns them as a single successful output line
(`BaseCommand.success([text])`). -/
def echoCommand : Command :=
  { name := str "echo", description := str "Display a line of text",
    usage := str "echo [text...]", aliases := [],
    execute := fun context =>
      { success := true, output := some [List.intercalate (str " ") context.args],
        error := none, exitCode := 0 } }

namespace BashInterpreter

/-- The interpreter's own simplified tokenizer `parseCommand` (quotes only,
no backslash escapes), scanner state as in the source. -/
def parseCommandAux : List Char → List Char → Option Char → List (List Char)
  | [], current, _ => if current.isEmpty then [] else [current]
  | c :: rest, current, quote =>
    if (c = '"' ∨ c = '\'') ∧ quote.isNone then parseCommandAux rest current (some c)
    else if quote = some c then parseCommandAux rest current none
    else if c = ' ' ∧ quote.isNone then
      if current.isEmpty then parseCommandAux rest [] quote
      else current :: parseCommandAux rest [] quote
    else parseCommandAux rest (current ++ [c]) quote

/-- `BashInterpreter.parseCommand(line)`. -/
def parseCommand (line : List Char) : List (List Char) :=
  parseCommandAux line [] none

/-- JS `String.prototype.includes(needle)` on `hay`. -/
def includesSub (needle : List Char) : List Char → Bool
  | [] => needle.isEmpty
  | c :: rest => needle.isPrefixOf (c :: rest) || includesSub needle rest

/-- A regex `\w` character: `[A-Za-z0-9_]`. -/
def isWordChar (c : Char) : Bool := c.isAlphanum || c = '_'

/-- The `replace(/\$(\w+)/g, …)` substitution inside the interpreter's
`echo`: each `$NAME` is replaced by the environment value (empty string if
unset). -/
def substVars (environment : List (List Char × List Char)) : List Char → List Char
  | [] => []
  | c :: rest =>
    if c = '$' then
      let varName := rest.takeWhile isWordChar
      if varName.isEmpty then c :: substVars environment rest
      else ((lookupA environment varName).getD []) ++ substVars environment (rest.drop varName.length)
    else c :: substVars environment rest
termination_by l => l.length
decreasing_by
  · simp
  · simp only [List.length_cons, List.length_drop]
    omega
  · simp

/-- Interpreter state threaded through a script run: the file system, the
shared environment map, and the lines sent to the terminal sink. -/
structure ScriptState where
  fs : VirtualFileSystem
  env : List (List Char × List Char)
  outputs : List (List Char)

/-- `executeEcho(args, context)`. -/
def executeEcho (args : List (List Char)) (st : ScriptState) : Bool × ScriptState :=
  let output := substVars st.env (List.intercalate (str " ") args)
  (true, { st with outputs := st.outputs ++ [output] })

/-- `executeExport(args, context)`: each `KEY=VALUE` argument (split with
limit 2) with both parts non-empty sets the variable. -/
def executeExport (args : List (List Char)) (st : ScriptState) : Bool × ScriptState :=
  let env' := args.foldl
    (fun env arg =>
      let parts := splitOnChar '=' arg
      let key := parts.headD []
      let value := (parts.drop 1).headD []
      if !key.isEmpty && !value.isEmpty then setA env key value else env)
    st.env
  (true, { st with env := env' })

/-- `executeCd(args, context)`: `args[0] || '~'`, then
`setCurrentDirectory`. -/
def executeCd (args : List (List Char)) (st : ScriptState) : Bool × ScriptState :=
  let path := match args with
    | [] => str "~"
    | p :: _ => if p.isEmpty then str "~" else p
  let r := st.fs.setCurrentDirectory path
  (r.1, { st with fs := r.2 })

/-- JS `String.prototype.padStart(n)` with spaces. -/
def padStart (n : Nat) (l : List Char) : List Char :=
  List.replicate (n - l.length) ' ' ++ l

/-- The line `executeLs` prints for one node (`d`/`-`, permissions, padded
size, ANSI-colored name for directories). -/
def lsLine (file : FSNode) : List Char :=
  let esc : Char := Char.ofNat 27
  let nameCol :=
    if file.isDir then esc :: str "[34m" ++ file.name ++ esc :: str "[0m"
    else file.name
  (if file.isDir then str "d" else str "-") ++ file.permissions ++ str " " ++
    padStart 8 (str (Nat.repr file.size)) ++ str " " ++ nameCol

/-- `executeLs(args, context)`. -/
def executeLs (st : ScriptState) : Bool × ScriptState :=
  let files := st.fs.listDirectory none
  (true, { st with outputs := st.outputs ++ files.map lsLine })

/-- `executeScriptLine(line, context)`: dispatch over the interpreter's
built-in command set; any other command is a hard error. -/
def executeScriptLine (line : List Char) (st : ScriptState) : Bool × ScriptState :=
  match parseCommand line with
  | [] => (true, st)
  | command :: args =>
    if command = str "echo" then executeEcho args st
    else if command = str "export" then executeExport args st
    else if command = str "cd" then executeCd args st
    else if command = str "ls" then executeLs st
    else
      (false, { st with outputs :=
        st.outputs ++ [str "bash: " ++ command ++ str ": command not found"] })

/-- The `for (i …)` loop of `executeScript`: run surviving lines in order,
skipping blank and `#` lines, stopping at the first failure. -/
def runLines : List (List Char) → ScriptState → Bool × ScriptState
  | [], st => (true, st)
  | l :: rest, st =>
    let line := trimL l
    if line.isEmpty || (str "#").isPrefixOf line then runLines rest st
    else
      match executeScriptLine line st with
      | (true, st') => runLines rest st'
      | (false, st') => (false, st')

/-- `BashInterpreter.executeScript(scriptPath, context)`: read the file
(a JS-falsy empty string is reported as missing), shebang inspection, then
line-by-line execution. -/
def executeScript (fs : VirtualFileSystem) (environment : List (List Char × List Char))
    (scriptPath : List Char) : Bool × ScriptState :=
  let st : ScriptState := ⟨fs, environment, []⟩
  let missing : Bool × ScriptState :=
    (false, { st with outputs :=
      [str "bash: " ++ scriptPath ++ str ": No such file or directory"] })
  match fs.readFile scriptPath with
  | none => missing
  | some content =>
    if content.isEmpty then missing
    else
      let lines := (splitOnChar '\n' content).filter (fun l => !(trimL l).isEmpty)
      if lines.isEmpty then (true, st)
      else
        let first := lines.headD []
        if (str "#!").isPrefixOf first then
          let shebang := trimL (first.drop 2)
          if !includesSub (str "bash") shebang && !includesSub (str "sh") shebang then
            (false, { st with outputs :=
              [str "bash: " ++ scriptPath ++ str ": cannot execute binary file"] })
          else runLines lines st
        else runLines lines st

end BashInterpreter

/-! ## General lemmas about the association-list map operations -/

theorem lookupA_setA_self {β : Type} (l : List (List Char × β)) (key : List Char) (val : β) :
    lookupA (setA l key val) key = some val := by
  induction l with
  | nil => simp [setA, lookupA]
  | cons e rest ih =>
    by_cases h : e.1 = key
    · simp [setA, h, lookupA]
    · simp [setA, h, lookupA, ih]

theorem lookupA_setA_ne {β : Type} (l : List (List Char × β)) (k key : List Char) (val : β)
    (h : k ≠ key) : lookupA (setA l k val) key = lookupA l key := by
  induction l with
  | nil => simp [setA, lookupA, h]
  | cons e rest ih =>
    obtain ⟨k0, v0⟩ := e
    by_cases he : k0 = k
    · subst he
      simp only [setA, if_pos rfl, lookupA]
      rw [if_neg h, if_neg h]
    · simp only [setA, if_neg he, lookupA]
      by_cases hk : k0 = key
      · rw [if_pos hk, if_pos hk]
      · rw [if_neg hk, if_neg hk]
        exact ih

theorem lookupA_eq_none_of_not_mem {β : Type} :
    ∀ (l : List (List Char × β)) (key : List Char),
      key ∉ l.map Prod.fst → lookupA l key = none := by
  intro l key
  induction l with
  | nil => intro _; rfl
  | cons e rest ih =>
    intro hm
    obtain ⟨k0, v0⟩ := e
    simp only [List.map_cons, List.mem_cons, not_or] at hm
    have hne : ¬ k0 = key := fun he => hm.1 he.symm
    simp only [lookupA, if_neg hne]
    exact ih hm.2

theorem lookupA_delA_of_nodup {β : Type} :
    ∀ (l : List (List Char × β)) (key : List Char),
      (l.map Prod.fst).Nodup → lookupA (delA l key) key = none := by
  intro l key
  induction l with
  | nil => intro _; rfl
  | cons e rest ih =>
    intro hnd
    obtain ⟨k0, v0⟩ := e
    simp only [List.map_cons, List.nodup_cons] at hnd
    by_cases h : k0 = key
    · subst h
      simp only [delA, if_pos rfl]
      exact lookupA_eq_none_of_not_mem rest k0 hnd.1
    · simp only [delA, if_neg h, lookupA, if_neg h]
      exact ih hnd.2

/-! ## Claim C9: the tokenizer -/

theorem tokenizeAux_no_empty (input : List Char) :
    ∀ (current : List Char) (quote : Option Char) (escaped : Bool),
      [] ∉ CommandProcessor.tokenizeAux input current quote escaped := by
  induction input with
  | nil =>
    intro current quote escaped
    simp only [CommandProcessor.tokenizeAux]
    split_ifs with h
    · simp
    · intro hm
      rw [List.mem_singleton] at hm
      rw [← hm] at h
      simp at h
  | cons c rest ih =>
    intro current quote escaped
    simp only [CommandProcessor.tokenizeAux]
    split_ifs with h1 h2 h3 h4 h5 h6
    · exact ih _ _ _
    · exact ih _ _ _
    · exact ih _ _ _
    · exact ih _ _ _
    · exact ih _ _ _
    · intro hm
      rcases List.mem_cons.mp hm with he | hm'
      · rw [← he] at h6
        simp at h6
      · exact ih _ _ _ hm'
    · exact ih _ _ _

/-- C9: tokenizing `echo "a b" c` yields `["echo", "a b", "c"]` and
`echo a\ b` yields `["echo", "a b"]`; a backslash makes the next character
literal even inside quotes (witnessed by `echo "a\" b"`), quote characters
are not copied into tokens, and no input line ever produces an empty
token. -/
theorem c9_tokenize :
    CommandProcessor.tokenize (str "echo \"a b\" c") = [str "echo", str "a b", str "c"] ∧
    CommandProcessor.tokenize (str "echo a\\ b") = [str "echo", str "a b"] ∧
    CommandProcessor.tokenize (str "echo \"a\\\" b\"") = [str "echo", str "a\" b"] ∧
    ∀ line : List Char, [] ∉ CommandProcessor.tokenize line :=
  ⟨by decide, by decide, by decide, fun line => tokenizeAux_no_empty line [] none false⟩

/-! ## Claims C1 and C2: the flag/argument/redirect parser -/

/-- C1 counterexample: parsing `ls -la /tmp` does NOT record flag `a` as
boolean-true, and does NOT leave `/tmp` as a positional argument (the last
flag of the `-la` group consumes `/tmp` as its string value). -/
theorem c1_counterexample :
    lookupA (CommandProcessor.parseInput (str "ls -la /tmp")).flags (str "a") ≠
      some (FlagValue.ofBool true) ∧
    (CommandProcessor.parseInput (str "ls -la /tmp")).args ≠ [str "/tmp"] := by
  decide

/-- C1 (amended): parsing `ls -la /tmp` yields command `ls`, flag `l`
boolean-true, flag `a` with string value `/tmp` (the last short flag of a
group consumes the following non-dash token), empty args, no redirect. -/
theorem c1_parse_ls_la_tmp :
    CommandProcessor.parseInput (str "ls -la /tmp") =
      ⟨str "ls", [],
       [(str "l", FlagValue.ofBool true), (str "a", FlagValue.ofStr (str "/tmp"))],
       none, none⟩ := by
  decide

/-- C2 counterexample: parsing `ls -l > out.txt` does NOT record flag `l`
as boolean-true and records NO redirect target: the short-flag look-ahead
consumes `>` (which does not start with `-`) as the value of `l` before the
redirect rule can see it. -/
theorem c2_counterexample :
    lookupA (CommandProcessor.parseInput (str "ls -l > out.txt")).flags (str "l") ≠
      some (FlagValue.ofBool true) ∧
    (CommandProcessor.parseInput (str "ls -l > out.txt")).redirectToFile = none := by
  decide

/-- C2 (amended): `ls -l > out.txt` parses to flag `l` with string value
`>`, positional argument `out.txt` and no redirect (the flag-value
look-ahead reaches `>` before the redirect rule, since only tokens starting
with `-` are excluded); `ls -o out.txt` parses to flag `o` with string
value `out.txt` and no redirect. -/
theorem c2_parse_redirect_vs_flag :
    CommandProcessor.parseInput (str "ls -l > out.txt") =
      ⟨str "ls", [str "out.txt"], [(str "l", FlagValue.ofStr (str ">"))], none, none⟩ ∧
    CommandProcessor.parseInput (str "ls -o out.txt") =
      ⟨str "ls", [], [(str "o", FlagValue.ofStr (str "out.txt"))], none, none⟩ := by
  decide

/-! ## Claim C3: echo with write redirection -/

/-- C3: parsing `echo hi > out.txt` yields args `["hi"]`, no flags,
redirect target `out.txt` in write mode; dispatching that line with a
registered echo command returns a successful result carrying no output
lines and leaves the file system with `readFile("out.txt") == "hi"`. -/
theorem c3_echo_redirect :
    CommandProcessor.parseInput (str "echo hi > out.txt") =
      ⟨str "echo", [str "hi"], [], some (str "out.txt"), some RedirectMode.write⟩ ∧
    (CommandProcessor.executeCommand
        (CommandProcessor.registerCommand CommandProcessor.emptyProcessor echoCommand)
        (str "echo hi > out.txt") initialVFS [] (str "~")).1 =
      ⟨true, none, none, 0⟩ ∧
    VirtualFileSystem.readFile
      (CommandProcessor.executeCommand
        (CommandProcessor.registerCommand CommandProcessor.emptyProcessor echoCommand)
        (str "echo hi > out.txt") initialVFS [] (str "~")).2
      (str "out.txt") = some (str "hi") :=
  ⟨by decide, rfl, rfl⟩

/-! ## Claim C4: registry collision semantics -/

/-- A do-nothing handler for the registry scenario commands. -/
def trivialExec : CommandContext → CommandResult :=
  fun _ => { success := true, output := some [], error := none, exitCode := 0 }

/-- Scenario command: primary name `a`, no aliases. -/
def cmdPrimA : Command := ⟨str "a", [], [], [], trivialExec⟩

/-- Scenario command: primary name `b` with alias `a`. -/
def cmdAliasB : Command := ⟨str "b", [], [], [str "a"], trivialExec⟩

/-- Scenario command: primary name `a`, no aliases, registered last. -/
def cmdPrimC : Command := ⟨str "a", [], [], [], trivialExec⟩

/-- Registering `cmdPrimA`, then `cmdAliasB` (alias `a`), then `cmdPrimC`
(primary name `a`). -/
def cpScenario : CommandProcessor :=
  CommandProcessor.registerCommand
    (CommandProcessor.registerCommand
      (CommandProcessor.registerCommand CommandProcessor.emptyProcessor cmdPrimA)
      cmdAliasB)
    cmdPrimC

/-- C4 counterexample: after registering a command named `a`, then a
command `b` with alias `a`, then a command named `a` again, `getCommand "a"`
still resolves to the alias owner `b` — NOT to the most recently registered
colliding command: the alias map shadows the commands map, so "last
registration wins" fails across the two maps. -/
theorem c4_counterexample :
    CommandProcessor.getCommand cpScenario (str "a") = some cmdAliasB ∧
    cmdAliasB ≠ cmdPrimC :=
  ⟨rfl, fun h => absurd (congrArg Command.name h) (by decide)⟩

theorem lookupA_foldl_setA_of_not_mem (t : List (List Char)) (nm : List Char) :
    ∀ (m : List (List Char × List Char)) (key : List Char), key ∉ t.map toLower →
      lookupA (t.foldl (fun m' a => setA m' (toLower a) nm) m) key = lookupA m key := by
  induction t with
  | nil => intro m key _; rfl
  | cons a t' ih =>
    intro m key hk
    simp only [List.map_cons, List.mem_cons, not_or] at hk
    simp only [List.foldl_cons]
    rw [ih _ key hk.2, lookupA_setA_ne _ _ _ _ (fun he => hk.1 he.symm)]

theorem lookupA_foldl_setA_of_mem (t : List (List Char)) (nm : List Char) :
    ∀ (m : List (List Char × List Char)) (key : List Char), key ∈ t.map toLower →
      lookupA (t.foldl (fun m' a => setA m' (toLower a) nm) m) key = some nm := by
  induction t with
  | nil => intro m key hk; simp at hk
  | cons a t' ih =>
    intro m key hk
    simp only [List.foldl_cons]
    by_cases hmem : key ∈ t'.map toLower
    · exact ih _ key hmem
    · simp only [List.map_cons, List.mem_cons] at hk
      rcases hk with he | hmem'
      · rw [lookupA_foldl_setA_of_not_mem t' nm _ key hmem, he, lookupA_setA_self]
      · exact absurd hmem' hmem

/-- C4 (amended): collisions overwrite within each of the registry's two
maps — registering a command always makes the commands map resolve its
lowercased primary name to it, and for a command with a non-empty primary
name `getCommand` of any of its aliases resolves to it (a JS-falsy empty
alias-map value would instead fall back to the alias itself; the alias map
is consulted first, so an alias registration wins over a primary name of
the same string; in particular, registering a command whose alias equals
another command's primary name makes `getCommand` of that name resolve to
the newly registered command). -/
theorem c4_registry_overwrite :
    (∀ (cp : CommandProcessor) (cmd : Command) (al : List Char), cmd.name ≠ [] →
      al ∈ cmd.aliases →
      CommandProcessor.getCommand (CommandProcessor.registerCommand cp cmd) al = some cmd) ∧
    (∀ (cp : CommandProcessor) (cmd : Command),
      lookupA (CommandProcessor.registerCommand cp cmd).commands (toLower cmd.name) =
        some cmd) := by
  constructor
  · intro cp cmd al hname hal
    unfold CommandProcessor.getCommand CommandProcessor.registerCommand
    simp only
    rw [lookupA_foldl_setA_of_mem cmd.aliases (toLower cmd.name) cp.aliases (toLower al)
      (List.mem_map_of_mem toLower hal)]
    have hne : (toLower cmd.name).isEmpty = false := by
      cases h' : toLower cmd.name with
      | nil => exact absurd (by simpa [toLower] using h') hname
      | cons c cs => rfl
    simp only [CommandProcessor.jsOrStr, hne, Bool.false_eq_true, if_false]
    exact lookupA_setA_self _ _ _
  · intro cp cmd
    unfold CommandProcessor.registerCommand
    simp only
    exact lookupA_setA_self _ _ _

/-- C4 witness: registering `cmdAliasB` (alias `a`) into an empty registry
makes `getCommand "a"` resolve to it, and its primary entry `b` resolve to
it. -/
theorem c4_registry_overwrite_witness :
    CommandProcessor.getCommand
      (CommandProcessor.registerCommand CommandProcessor.emptyProcessor cmdAliasB)
      (str "a") = some cmdAliasB ∧
    lookupA (CommandProcessor.registerCommand CommandProcessor.emptyProcessor
      cmdAliasB).commands (toLower cmdAliasB.name) = some cmdAliasB :=
  ⟨c4_registry_overwrite.1 CommandProcessor.emptyProcessor cmdAliasB (str "a")
     (by decide) (by decide),
   c4_registry_overwrite.2 CommandProcessor.emptyProcessor cmdAliasB⟩

/-! ## Tree-walk lemmas shared by the file-system claims -/

/-- Whether an optional node is an existing directory. -/
def isSomeDir : Option FSNode → Bool
  | some (FSNode.dir _ _ _) => true
  | _ => false

/-- The §3 current-working-path invariant: the stored current path resolves
to an existing directory node. -/
def cwdValid (s : VirtualFileSystem) : Bool :=
  isSomeDir (VirtualFileSystem.getNodeByPath s.root (s.getAbsolutePath s.currentPath))

theorem walkParts_append (P Q : List (List Char)) :
    ∀ n : FSNode, VirtualFileSystem.walkParts (P ++ Q) n =
      match VirtualFileSystem.walkParts P n with
      | none => none
      | some m => VirtualFileSystem.walkParts Q m := by
  induction P with
  | nil => intro n; rfl
  | cons p rest ih =>
    intro n
    cases n with
    | file a b c d => rfl
    | dir nm pm ch =>
      simp only [List.cons_append, VirtualFileSystem.walkParts]
      cases lookupA ch p with
      | none => rfl
      | some child => exact ih child

theorem getNodeByPath_eq_walk (root : FSNode) (abs : List Char) :
    VirtualFileSystem.getNodeByPath root abs =
      VirtualFileSystem.walkParts (VirtualFileSystem.pathParts abs) root := by
  unfold VirtualFileSystem.getNodeByPath
  split_ifs with h
  · subst h; rfl
  · rfl

theorem lookupA_map_branch (ch : List (List Char × FSNode)) (p q : List Char)
    (h : FSNode → FSNode) :
    lookupA (ch.map (fun e => if e.1 = p then (e.1, h e.2) else e)) q =
      if q = p then (lookupA ch q).map h else lookupA ch q := by
  induction ch with
  | nil => by_cases hq : q = p <;> simp [lookupA, hq]
  | cons e rest ih =>
    obtain ⟨k0, c0⟩ := e
    simp only [List.map_cons]
    by_cases hk : k0 = p
    · rw [if_pos hk]
      by_cases hq : k0 = q
      · subst hq
        simp [lookupA, hk]
      · simp only [lookupA, if_neg hq, ih]
    · rw [if_neg hk]
      by_cases hq : k0 = q
      · subst hq
        simp [lookupA, if_neg hk]
      · simp only [lookupA, if_neg hq, ih]

theorem walkParts_modifyAtParts_same (P : List (List Char)) :
    ∀ (n : FSNode) (f : FSNode → FSNode),
      VirtualFileSystem.walkParts P (VirtualFileSystem.modifyAtParts n P f) =
        (VirtualFileSystem.walkParts P n).map f := by
  induction P with
  | nil => intro n f; rfl
  | cons p rest ih =>
    intro n f
    cases n with
    | file a b c d => rfl
    | dir nm pm ch =>
      simp only [VirtualFileSystem.modifyAtParts, VirtualFileSystem.walkParts]
      rw [lookupA_map_branch ch p p (fun c => VirtualFileSystem.modifyAtParts c rest f),
        if_pos rfl]
      cases lookupA ch p with
      | none => rfl
      | some c0 => exact ih c0 f

theorem isSomeDir_walk_modify_file (P : List (List Char)) :
    ∀ (n : FSNode) (f : FSNode → FSNode),
      (∀ a b c d, ∃ a' b' c' d', f (FSNode.file a b c d) = FSNode.file a' b' c' d') →
      (∃ a b c d, VirtualFileSystem.walkParts P n = some (FSNode.file a b c d)) →
      ∀ Q : List (List Char),
        isSomeDir (VirtualFileSystem.walkParts Q (VirtualFileSystem.modifyAtParts n P f)) =
          isSomeDir (VirtualFileSystem.walkParts Q n) := by
  induction P with
  | nil =>
    intro n f hf hP Q
    obtain ⟨a, b, c, d, hn⟩ := hP
    have hn' : n = FSNode.file a b c d := by
      simpa [VirtualFileSystem.walkParts] using hn
    subst hn'
    obtain ⟨a', b', c', d', hf'⟩ := hf a b c d
    simp only [VirtualFileSystem.modifyAtParts, hf']
    cases Q with
    | nil => rfl
    | cons q R => rfl
  | cons p rest ih =>
    intro n f hf hP Q
    cases n with
    | file a b c d => rfl
    | dir nm pm ch =>
      obtain ⟨a, b, c, d, hn⟩ := hP
      simp only [VirtualFileSystem.walkParts] at hn
      cases hl : lookupA ch p with
      | none => rw [hl] at hn; exact absurd hn (by simp)
      | some c0 =>
        rw [hl] at hn
        simp only [VirtualFileSystem.modifyAtParts]
        cases Q with
        | nil => rfl
        | cons q R =>
          simp only [VirtualFileSystem.walkParts]
          rw [lookupA_map_branch ch p q (fun c => VirtualFileSystem.modifyAtParts c rest f)]
          by_cases hq : q = p
          · subst hq
            rw [if_pos rfl, hl]
            exact ih c0 f hf ⟨a, b, c, d, hn⟩ R
          · rw [if_neg hq]

theorem getCurrentDirectoryNode_modify_cwd (s : VirtualFileSystem) (f : FSNode → FSNode) :
    VirtualFileSystem.getCurrentDirectoryNode
        { s with root := VirtualFileSystem.modifyAtParts s.root s.curParts f } =
      (s.getCurrentDirectoryNode).map f := by
  show VirtualFileSystem.getNodeByPath
      (VirtualFileSystem.modifyAtParts s.root s.curParts f)
      (s.getAbsolutePath s.currentPath) =
    (VirtualFileSystem.getNodeByPath s.root (s.getAbsolutePath s.currentPath)).map f
  rw [getNodeByPath_eq_walk, getNodeByPath_eq_walk]
  exact walkParts_modifyAtParts_same _ _ _

/-! ## Claim C7: createFile / exists interplay -/

/-- C7: for a slash-free name `x`, a successful `createFile(x, c)` makes
`exists(x)` true and `readFile(x)` return `c`; a second `createFile(x)`
returns `false` and leaves the whole state (hence the first file's content
and the rest of the tree) unchanged. -/
theorem c7_createFile_exists (s : VirtualFileSystem) (x c c' : List Char)
    (hx : x.contains '/' = false)
    (h1 : (s.createFile x c).1 = true) :
    VirtualFileSystem.exists' (s.createFile x c).2 x = true ∧
    VirtualFileSystem.readFile (s.createFile x c).2 x = some c ∧
    ((s.createFile x c).2.createFile x c').1 = false ∧
    ((s.createFile x c).2.createFile x c').2 = (s.createFile x c).2 := by
  by_cases hex : s.exists' x = true
  · rw [VirtualFileSystem.createFile, if_pos hex] at h1
    exact absurd h1 (by simp)
  · cases hcur : s.getCurrentDirectoryNode with
    | none =>
      rw [VirtualFileSystem.createFile, if_neg hex, hcur] at h1
      exact absurd h1 (by simp)
    | some node =>
      cases node with
      | file a b cc dd =>
        rw [VirtualFileSystem.createFile, if_neg hex, hcur] at h1
        exact absurd h1 (by simp)
      | dir dn dp ch =>
        have hstate : s.createFile x c =
            (true,
              { s with
                  root := VirtualFileSystem.modifyAtParts s.root s.curParts
                    (VirtualFileSystem.insertChild x (createNode x NodeType.file c)) }) := by
          rw [VirtualFileSystem.createFile, if_neg hex, hcur]
        have hcur' : (s.createFile x c).2.getCurrentDirectoryNode =
            some (FSNode.dir dn dp (setA ch x (createNode x NodeType.file c))) := by
          rw [hstate]
          show VirtualFileSystem.getCurrentDirectoryNode _ = _
          rw [getCurrentDirectoryNode_modify_cwd, hcur]
          rfl
        have hget : VirtualFileSystem.getNode (s.createFile x c).2 x =
            some (createNode x NodeType.file c) := by
          rw [VirtualFileSystem.getNode, hx]
          simp only [Bool.false_eq_true, if_false, hcur']
          exact lookupA_setA_self ch x (createNode x NodeType.file c)
        have hex' : VirtualFileSystem.exists' (s.createFile x c).2 x = true := by
          rw [VirtualFileSystem.exists', hget]
          rfl
        refine ⟨hex', ?_, ?_, ?_⟩
        · rw [VirtualFileSystem.readFile, hget]
          rfl
        · rw [VirtualFileSystem.createFile, if_pos hex']
        · rw [VirtualFileSystem.createFile, if_pos hex']

/-- C7 witness: creating `notes.txt` in the seeded tree. -/
theorem c7_createFile_exists_witness :
    (VirtualFileSystem.createFile initialVFS (str "notes.txt") (str "hi")).1 = true ∧
    VirtualFileSystem.exists'
      (VirtualFileSystem.createFile initialVFS (str "notes.txt") (str "hi")).2
      (str "notes.txt") = true ∧
    VirtualFileSystem.readFile
      (VirtualFileSystem.createFile initialVFS (str "notes.txt") (str "hi")).2
      (str "notes.txt") = some (str "hi") ∧
    ((VirtualFileSystem.createFile initialVFS (str "notes.txt") (str "hi")).2.createFile
      (str "notes.txt") (str "other")).1 = false :=
  ⟨by decide,
   (c7_createFile_exists initialVFS (str "notes.txt") (str "hi") (str "other")
     (by decide) (by decide)).1,
   (c7_createFile_exists initialVFS (str "notes.txt") (str "hi") (str "other")
     (by decide) (by decide)).2.1,
   (c7_createFile_exists initialVFS (str "notes.txt") (str "hi") (str "other")
     (by decide) (by decide)).2.2.1⟩

/-! ## Claim C8: deleteNode on a non-empty directory -/

/-- The children map of the current directory node, if it is a directory. -/
def cwdChildren (s : VirtualFileSystem) : Option (List (List Char × FSNode)) :=
  match s.getCurrentDirectoryNode with
  | some (FSNode.dir _ _ ch) => some ch
  | _ => none

/-- Whether `d` is a non-empty directory entry of the current directory. -/
def childNonEmptyDir (s : VirtualFileSystem) (d : List Char) : Bool :=
  match cwdChildren s with
  | some ch =>
    match lookupA ch d with
    | some (FSNode.dir _ _ ech) => !ech.isEmpty
    | _ => false
  | none => false

/-- Whether the current directory's children map has no duplicate keys
(always true for trees built by the documented operations). -/
def cwdKeysNodup (s : VirtualFileSystem) : Bool :=
  match cwdChildren s with
  | some ch => decide ((ch.map Prod.fst).Nodup)
  | none => false

/-- C8: for a slash-free non-empty directory entry `d` of the current
directory, `deleteNode(d, recursive := false)` returns `false` and leaves
the state (hence `d` and all of its children) unchanged, while
`deleteNode(d, recursive := true)` returns `true` and afterwards
`exists(d)` is false. -/
theorem c8_deleteNode (s : VirtualFileSystem) (d : List Char)
    (hd : d.contains '/' = false)
    (hne : childNonEmptyDir s d = true)
    (hnd : cwdKeysNodup s = true) :
    s.deleteNode d false = (false, s) ∧
    (s.deleteNode d true).1 = true ∧
    VirtualFileSystem.exists' (s.deleteNode d true).2 d = false := by
  cases hcur : s.getCurrentDirectoryNode with
  | none =>
    rw [childNonEmptyDir, cwdChildren, hcur] at hne
    exact absurd hne (by simp)
  | some node =>
    cases node with
    | file a b c dd =>
      rw [childNonEmptyDir, cwdChildren, hcur] at hne
      exact absurd hne (by simp)
    | dir dn dp ch =>
      rw [childNonEmptyDir, cwdChildren, hcur] at hne
      rw [cwdKeysNodup, cwdChildren, hcur] at hnd
      dsimp only at hne hnd
      cases hlk : lookupA ch d with
      | none => rw [hlk] at hne; exact absurd hne (by simp)
      | some node' =>
        rw [hlk] at hne
        cases node' with
        | file a b c dd => exact absurd hne (by simp)
        | dir en ep ech =>
          have hnonempty : VirtualFileSystem.nonEmptyDir (FSNode.dir en ep ech) = true := hne
          constructor
          · rw [VirtualFileSystem.deleteNode, hcur]
            dsimp only
            rw [hlk]
            dsimp only
            rw [if_pos (by simp [hnonempty])]
          · have hstate : s.deleteNode d true =
                (true,
                  { s with
                      root := VirtualFileSystem.modifyAtParts s.root s.curParts
                        (VirtualFileSystem.removeChild d) }) := by
              rw [VirtualFileSystem.deleteNode, hcur]
              dsimp only
              rw [hlk]
              dsimp only
              rw [if_neg (by simp)]
            have hcur' : (s.deleteNode d true).2.getCurrentDirectoryNode =
                some (FSNode.dir dn dp (delA ch d)) := by
              rw [hstate]
              show VirtualFileSystem.getCurrentDirectoryNode _ = _
              rw [getCurrentDirectoryNode_modify_cwd, hcur]
              rfl
            refine ⟨by rw [hstate], ?_⟩
            rw [VirtualFileSystem.exists', VirtualFileSystem.getNode, hd]
            simp only [Bool.false_eq_true, if_false, hcur']
            rw [lookupA_delA_of_nodup ch d (of_decide_eq_true hnd)]
            rfl

/-- C8 witness: with the current directory set to `/`, the entry `home` is
a non-empty directory. -/
theorem c8_deleteNode_witness :
    ((VirtualFileSystem.setCurrentDirectory initialVFS (str "/")).2.deleteNode
      (str "home") false) =
      (false, (VirtualFileSystem.setCurrentDirectory initialVFS (str "/")).2) ∧
    ((VirtualFileSystem.setCurrentDirectory initialVFS (str "/")).2.deleteNode
      (str "home") true).1 = true ∧
    VirtualFileSystem.exists'
      ((VirtualFileSystem.setCurrentDirectory initialVFS (str "/")).2.deleteNode
        (str "home") true).2 (str "home") = false :=
  c8_deleteNode (VirtualFileSystem.setCurrentDirectory initialVFS (str "/")).2
    (str "home") (by decide) (by decide) (by decide)

/-! ## Claim C5: the current-working-path invariant -/

theorem isPrefixOf_exists {l₁ l₂ : List Char} (h : l₁.isPrefixOf l₂) :
    ∃ t, l₂ = l₁ ++ t := by
  rw [List.isPrefixOf_iff_prefix] at h
  exact ⟨l₂.drop l₁.length, (List.prefix_iff_eq_append.mp h).symm⟩

theorem getAbsolutePath_head (s : VirtualFileSystem) (th : List Char)
    (hh : s.homeDirectory = '/' :: th) (p : List Char) :
    ∃ t, s.getAbsolutePath p = '/' :: t := by
  unfold VirtualFileSystem.getAbsolutePath
  split_ifs with h1 h2 h3
  · exact ⟨th, hh⟩
  · exact ⟨th ++ p.drop 1, by rw [hh]; rfl⟩
  · obtain ⟨t, ht⟩ := isPrefixOf_exists h3
    exact ⟨t, ht⟩
  · exact ⟨th ++ (str "/" ++ p), by rw [hh]; simp⟩

theorem resolvePath_head (s : VirtualFileSystem) (th : List Char)
    (hh : s.homeDirectory = '/' :: th) (p : List Char) :
    ∃ t, s.resolvePath p = '/' :: t := by
  unfold VirtualFileSystem.resolvePath
  split_ifs with h1 h2 h3 h4 h5 h6
  · exact ⟨th, hh⟩
  · exact ⟨th ++ p.drop 1, by rw [hh]; rfl⟩
  · obtain ⟨t, ht⟩ := isPrefixOf_exists h3
    exact ⟨t, ht⟩
  · exact getAbsolutePath_head s th hh s.currentPath
  · exact ⟨_, rfl⟩
  · exact ⟨_, rfl⟩
  · obtain ⟨t, ht⟩ := getAbsolutePath_head s th hh s.currentPath
    exact ⟨t ++ ((if (s.getAbsolutePath s.currentPath).getLast? = some '/' then []
      else str "/") ++ p), by rw [ht]; simp⟩

theorem getAbs_normalize (s : VirtualFileSystem) (r : List Char) (hr : ∃ t, r = '/' :: t) :
    s.getAbsolutePath (s.normalizeDisplayPath r) = r := by
  unfold VirtualFileSystem.normalizeDisplayPath
  split_ifs with h1 h2
  · unfold VirtualFileSystem.getAbsolutePath
    rw [if_pos rfl]
    exact h1.symm
  · obtain ⟨t, ht⟩ := isPrefixOf_exists h2
    have hdrop : r.drop s.homeDirectory.length = '/' :: t := by
      rw [ht, List.append_assoc]
      rw [List.drop_left]
      rfl
    unfold VirtualFileSystem.getAbsolutePath
    rw [hdrop]
    rw [if_neg (by intro hcon; rw [show str "~" = ['~'] from rfl] at hcon; injection hcon with hc ht'; exact List.noConfusion ht')]
    rw [if_pos (by rw [show str "~/" = ['~', '/'] from rfl]; simp [List.isPrefixOf])]
    rw [ht, List.append_assoc]
    rfl
  · obtain ⟨t, ht⟩ := hr
    subst ht
    unfold VirtualFileSystem.getAbsolutePath
    rw [if_neg (by intro hcon; rw [show str "~" = ['~'] from rfl] at hcon; injection hcon with hc ht'; exact absurd hc (by decide))]
    rw [if_neg (by rw [show str "~/" = ['~', '/'] from rfl]; simp [List.isPrefixOf])]
    rw [if_pos (by rw [show str "/" = ['/'] from rfl]; simp [List.isPrefixOf])]

theorem cwdValid_modify (s : VirtualFileSystem) (f : FSNode → FSNode)
    (h : cwdValid s = true)
    (hf : ∀ nm pm ch, ∃ nm' pm' ch', f (FSNode.dir nm pm ch) = FSNode.dir nm' pm' ch') :
    cwdValid { s with root := VirtualFileSystem.modifyAtParts s.root s.curParts f } = true := by
  unfold cwdValid at h
  rw [getNodeByPath_eq_walk] at h
  rw [show VirtualFileSystem.pathParts (s.getAbsolutePath s.currentPath) = s.curParts
    from rfl] at h
  show isSomeDir (VirtualFileSystem.getNodeByPath
    (VirtualFileSystem.modifyAtParts s.root s.curParts f)
    (s.getAbsolutePath s.currentPath)) = true
  rw [getNodeByPath_eq_walk]
  rw [show VirtualFileSystem.pathParts (s.getAbsolutePath s.currentPath) = s.curParts
    from rfl]
  rw [walkParts_modifyAtParts_same]
  cases hw : VirtualFileSystem.walkParts s.curParts s.root with
  | none => rw [hw] at h; exact absurd h (by simp [isSomeDir])
  | some node =>
    rw [hw] at h
    cases node with
    | file a b c d => exact absurd h (by simp [isSomeDir])
    | dir nm pm ch =>
      obtain ⟨nm', pm', ch', hf'⟩ := hf nm pm ch
      simp only [Option.map_some', hf']
      rfl

theorem cwdValid_modify_file (s : VirtualFileSystem) (parts : List (List Char))
    (f : FSNode → FSNode)
    (hf : ∀ a b c d, ∃ a' b' c' d', f (FSNode.file a b c d) = FSNode.file a' b' c' d')
    (hP : ∃ a b c d, VirtualFileSystem.walkParts parts s.root = some (FSNode.file a b c d))
    (h : cwdValid s = true) :
    cwdValid { s with root := VirtualFileSystem.modifyAtParts s.root parts f } = true := by
  unfold cwdValid at h
  show isSomeDir (VirtualFileSystem.getNodeByPath
    (VirtualFileSystem.modifyAtParts s.root parts f)
    (s.getAbsolutePath s.currentPath)) = true
  rw [getNodeByPath_eq_walk] at h ⊢
  rw [isSomeDir_walk_modify_file parts s.root f hf hP]
  exact h

theorem setCurrentDirectory_preserves (s : VirtualFileSystem) (p th : List Char)
    (hh : s.homeDirectory = '/' :: th) (h : cwdValid s = true) :
    cwdValid (s.setCurrentDirectory p).2 = true := by
  unfold VirtualFileSystem.setCurrentDirectory
  dsimp only
  cases hnode : VirtualFileSystem.getNodeByPath s.root (s.resolvePath p) with
  | none => exact h
  | some node =>
    cases node with
    | file a b c d => exact h
    | dir nm pm ch =>
      dsimp only
      show isSomeDir (VirtualFileSystem.getNodeByPath s.root
        (s.getAbsolutePath (s.normalizeDisplayPath (s.resolvePath p)))) = true
      rw [getAbs_normalize s (s.resolvePath p) (resolvePath_head s th hh p)]
      rw [hnode]
      rfl

theorem setCurrentDirectory_fail_unchanged (s : VirtualFileSystem) (p : List Char)
    (h : (s.setCurrentDirectory p).1 = false) : (s.setCurrentDirectory p).2 = s := by
  unfold VirtualFileSystem.setCurrentDirectory at h ⊢
  dsimp only at h ⊢
  cases hnode : VirtualFileSystem.getNodeByPath s.root (s.resolvePath p) with
  | none => rfl
  | some node =>
    cases node with
    | file a b c d => rfl
    | dir nm pm ch =>
      rw [hnode] at h
      exact absurd h (by simp)

theorem createFile_preserves (s : VirtualFileSystem) (n c : List Char)
    (h : cwdValid s = true) : cwdValid (s.createFile n c).2 = true := by
  unfold VirtualFileSystem.createFile
  split_ifs with hex
  · exact h
  · cases hcur : s.getCurrentDirectoryNode with
    | none => exact h
    | some node =>
      cases node with
      | file a b cc dd => exact h
      | dir dn dp ch =>
        dsimp only
        exact cwdValid_modify s _ h
          (fun nm pm ch' => ⟨nm, pm, setA ch' n (createNode n NodeType.file c), rfl⟩)

theorem createDirectory_preserves (s : VirtualFileSystem) (n : List Char)
    (h : cwdValid s = true) : cwdValid (s.createDirectory n).2 = true := by
  unfold VirtualFileSystem.createDirectory
  split_ifs with hex
  · exact h
  · cases hcur : s.getCurrentDirectoryNode with
    | none => exact h
    | some node =>
      cases node with
      | file a b cc dd => exact h
      | dir dn dp ch =>
        dsimp only
        exact cwdValid_modify s _ h
          (fun nm pm ch' => ⟨nm, pm, setA ch' n (createNode n NodeType.directory []), rfl⟩)

theorem deleteNode_preserves (s : VirtualFileSystem) (n : List Char) (r : Bool)
    (h : cwdValid s = true) : cwdValid (s.deleteNode n r).2 = true := by
  unfold VirtualFileSystem.deleteNode
  cases hcur : s.getCurrentDirectoryNode with
  | none => exact h
  | some node =>
    cases node with
    | file a b cc dd => exact h
    | dir dn dp ch =>
      dsimp only
      cases hlk : lookupA ch n with
      | none => exact h
      | some node' =>
        dsimp only
        split_ifs with hne
        · exact h
        · exact cwdValid_modify s _ h
            (fun nm pm ch' => ⟨nm, pm, delA ch' n, rfl⟩)

theorem writeFile_preserves (s : VirtualFileSystem) (n c : List Char)
    (h : cwdValid s = true) : cwdValid (s.writeFile n c).2 = true := by
  unfold VirtualFileSystem.writeFile
  cases hget : s.getNode n with
  | none => exact createFile_preserves s n c h
  | some node =>
    cases node with
    | dir dn dp ch => exact createFile_preserves s n c h
    | file a b cc dd =>
      dsimp only
      refine cwdValid_modify_file s _ (VirtualFileSystem.updateFileContent c) ?_ ?_ h
      · intro a' b' c' d'
        exact ⟨a', c, c', c.length, rfl⟩
      · rw [VirtualFileSystem.getNode] at hget
        split_ifs at hget with hsl
        · rw [if_pos hsl]
          rw [getNodeByPath_eq_walk] at hget
          exact ⟨a, b, cc, dd, hget⟩
        · rw [if_neg hsl]
          cases hcur : s.getCurrentDirectoryNode with
          | none => rw [hcur] at hget; exact absurd hget (by simp)
          | some cnode =>
            rw [hcur] at hget
            cases cnode with
            | file e1 e2 e3 e4 => exact absurd hget (by simp)
            | dir dn dp ch =>
              dsimp only at hget
              refine ⟨a, b, cc, dd, ?_⟩
              rw [walkParts_append]
              rw [show VirtualFileSystem.walkParts s.curParts s.root =
                s.getCurrentDirectoryNode from (getNodeByPath_eq_walk _ _).symm]
              rw [hcur]
              show VirtualFileSystem.walkParts [n] (FSNode.dir dn dp ch) = _
              simp only [VirtualFileSystem.walkParts, hget]

/-- C5: the current working path always resolves to an existing directory:
it holds for the seeded tree, every mutating Virtual Tree operation
preserves it (the read-only operations do not touch the state), and a
`setCurrentDirectory` call that fails leaves the state — in particular the
current-path field — unchanged. The home-directory hypothesis records that
the system is constructed with a slash-rooted home (`/home/user`). -/
theorem c5_cwd_invariant :
    cwdValid initialVFS = true ∧
    (∀ (s : VirtualFileSystem) (p th : List Char), s.homeDirectory = '/' :: th →
      cwdValid s = true → cwdValid (s.setCurrentDirectory p).2 = true) ∧
    (∀ (s : VirtualFileSystem) (p : List Char),
      (s.setCurrentDirectory p).1 = false → (s.setCurrentDirectory p).2 = s) ∧
    (∀ (s : VirtualFileSystem) (n c : List Char),
      cwdValid s = true → cwdValid (s.createFile n c).2 = true) ∧
    (∀ (s : VirtualFileSystem) (n : List Char),
      cwdValid s = true → cwdValid (s.createDirectory n).2 = true) ∧
    (∀ (s : VirtualFileSystem) (n : List Char) (r : Bool),
      cwdValid s = true → cwdValid (s.deleteNode n r).2 = true) ∧
    (∀ (s : VirtualFileSystem) (n c : List Char),
      cwdValid s = true → cwdValid (s.writeFile n c).2 = true) :=
  ⟨by decide,
   fun s p th hh h => setCurrentDirectory_preserves s p th hh h,
   fun s p h => setCurrentDirectory_fail_unchanged s p h,
   fun s n c h => createFile_preserves s n c h,
   fun s n h => createDirectory_preserves s n h,
   fun s n r h => deleteNode_preserves s n r h,
   fun s n c h => writeFile_preserves s n c h⟩

/-- C5 witness: the preservation clauses applied to concrete operations on
the seeded tree, and the rejection clause applied to a missing target. -/
theorem c5_cwd_invariant_witness :
    cwdValid (VirtualFileSystem.setCurrentDirectory initialVFS (str "/home")).2 = true ∧
    (VirtualFileSystem.setCurrentDirectory initialVFS (str "/nope")).2 = initialVFS ∧
    cwdValid (VirtualFileSystem.createFile initialVFS (str "a.txt") (str "x")).2 = true ∧
    cwdValid (VirtualFileSystem.createDirectory initialVFS (str "newdir")).2 = true ∧
    cwdValid (VirtualFileSystem.deleteNode initialVFS (str "readme.txt") false).2 = true ∧
    cwdValid (VirtualFileSystem.writeFile initialVFS (str "readme.txt") (str "new")).2 = true :=
  ⟨c5_cwd_invariant.2.1 initialVFS (str "/home") (str "home/user") (by decide) (by decide),
   c5_cwd_invariant.2.2.1 initialVFS (str "/nope") (by decide),
   c5_cwd_invariant.2.2.2.1 initialVFS (str "a.txt") (str "x") (by decide),
   c5_cwd_invariant.2.2.2.2.1 initialVFS (str "newdir") (by decide),
   c5_cwd_invariant.2.2.2.2.2.1 initialVFS (str "readme.txt") false (by decide),
   c5_cwd_invariant.2.2.2.2.2.2 initialVFS (str "readme.txt") (str "new") (by decide)⟩

/-! ## Claim C10: empty script file reported as missing -/

/-- C10: whenever `readFile` returns the empty string (an existing, readable
but empty file), `executeScript` reports failure — the JS-falsy empty
string takes the same branch as a `null` (missing file) result. -/
theorem c10_empty_script (s : VirtualFileSystem)
    (env : List (List Char × List Char)) (p : List Char)
    (h : s.readFile p = some []) :
    (BashInterpreter.executeScript s env p).1 = false ∧ s.readFile p ≠ none := by
  refine ⟨?_, by rw [h]; exact fun he => Option.noConfusion he⟩
  unfold BashInterpreter.executeScript
  rw [h]
  rfl

/-- C10 witness: an empty `empty.sh` created in the seeded tree. -/
theorem c10_empty_script_witness :
    VirtualFileSystem.readFile
      (VirtualFileSystem.createFile initialVFS (str "empty.sh") []).2 (str "empty.sh") =
      some [] ∧
    (BashInterpreter.executeScript
      (VirtualFileSystem.createFile initialVFS (str "empty.sh") []).2 [] (str "empty.sh")).1 =
      false :=
  ⟨by decide,
   (c10_empty_script (VirtualFileSystem.createFile initialVFS (str "empty.sh") []).2 []
     (str "empty.sh") (by decide)).1⟩

/-! ## Claim C6: listDirectory ordering -/

theorem compareChars_le_trans :
    ∀ (a b c : List Char), VirtualFileSystem.compareChars a b ≤ 0 →
      VirtualFileSystem.compareChars b c ≤ 0 → VirtualFileSystem.compareChars a c ≤ 0 := by
  intro a
  induction a with
  | nil =>
    intro b c _ _
    cases c with
    | nil => norm_num [VirtualFileSystem.compareChars]
    | cons z zs => norm_num [VirtualFileSystem.compareChars]
  | cons x xs ih =>
    intro b c hab hbc
    cases b with
    | nil => exact absurd hab (by norm_num [VirtualFileSystem.compareChars])
    | cons y ys =>
      cases c with
      | nil => exact absurd hbc (by norm_num [VirtualFileSystem.compareChars])
      | cons z zs =>
        simp only [VirtualFileSystem.compareChars] at hab hbc ⊢
        by_cases h1 : x < y
        · by_cases h2 : y < z
          · rw [if_pos (lt_trans h1 h2)]
            norm_num
          · by_cases h3 : z < y
            · rw [if_neg h2, if_pos h3] at hbc
              exact absurd hbc (by norm_num)
            · have hyz : y = z := le_antisymm (not_lt.mp h3) (not_lt.mp h2)
              subst hyz
              rw [if_pos h1]
              norm_num
        · by_cases h1' : y < x
          · rw [if_neg h1, if_pos h1'] at hab
            exact absurd hab (by norm_num)
          · have hxy : x = y := le_antisymm (not_lt.mp h1') (not_lt.mp h1)
            subst hxy
            rw [if_neg h1, if_neg h1'] at hab
            by_cases h2 : x < z
            · rw [if_pos h2]
              norm_num
            · by_cases h3 : z < x
              · rw [if_neg h2, if_pos h3] at hbc
                exact absurd hbc (by norm_num)
              · rw [if_neg h2, if_neg h3] at hbc ⊢
                exact ih ys zs hab hbc

theorem compareChars_lt_of_le_ne :
    ∀ (a b : List Char), VirtualFileSystem.compareChars a b ≤ 0 → a ≠ b →
      VirtualFileSystem.compareChars a b < 0 := by
  intro a
  induction a with
  | nil =>
    intro b hle hne
    cases b with
    | nil => exact absurd rfl hne
    | cons y ys => norm_num [VirtualFileSystem.compareChars]
  | cons x xs ih =>
    intro b hle hne
    cases b with
    | nil => exact absurd hle (by norm_num [VirtualFileSystem.compareChars])
    | cons y ys =>
      simp only [VirtualFileSystem.compareChars] at hle ⊢
      by_cases h1 : x < y
      · rw [if_pos h1]
        norm_num
      · by_cases h2 : y < x
        · rw [if_neg h1, if_pos h2] at hle
          exact absurd hle (by norm_num)
        · have hxy : x = y := le_antisymm (not_lt.mp h2) (not_lt.mp h1)
          subst hxy
          rw [if_neg h1, if_neg h2] at hle ⊢
          exact ih ys hle (fun he => hne (by rw [he]))

theorem compareChars_swap :
    ∀ (a b : List Char),
      VirtualFileSystem.compareChars a b = -(VirtualFileSystem.compareChars b a) := by
  intro a
  induction a with
  | nil =>
    intro b
    cases b with
    | nil => decide
    | cons y ys => norm_num [VirtualFileSystem.compareChars]
  | cons x xs ih =>
    intro b
    cases b with
    | nil => norm_num [VirtualFileSystem.compareChars]
    | cons y ys =>
      simp only [VirtualFileSystem.compareChars]
      by_cases h1 : x < y
      · rw [if_pos h1, if_neg (lt_asymm h1), if_pos h1]
      · by_cases h2 : y < x
        · rw [if_neg h1, if_pos h2, if_pos h2]
          decide
        · rw [if_neg h1, if_neg h2, if_neg h2, if_neg h1]
          exact ih ys

theorem listDirLe_trans (a b c : FSNode)
    (hab : VirtualFileSystem.listDirLe a b) (hbc : VirtualFileSystem.listDirLe b c) :
    VirtualFileSystem.listDirLe a c := by
  unfold VirtualFileSystem.listDirLe VirtualFileSystem.listDirCompare at hab hbc ⊢
  cases ha : a.isDir <;> cases hb : b.isDir <;> cases hc : c.isDir <;>
    simp_all <;>
    exact compareChars_le_trans _ _ _ hab hbc

theorem listDirLe_total (a b : FSNode) :
    VirtualFileSystem.listDirLe a b ∨ VirtualFileSystem.listDirLe b a := by
  unfold VirtualFileSystem.listDirLe VirtualFileSystem.listDirCompare
  by_cases hd : a.isDir = b.isDir
  · rw [if_neg (by simp [hd]), if_neg (by simp [hd])]
    have hs := compareChars_swap a.name b.name
    omega
  · rw [if_pos hd, if_pos (fun he => hd he.symm)]
    cases ha : a.isDir
    · right
      rw [show b.isDir = true by
        cases hb : b.isDir
        · exact absurd (ha.trans hb.symm) hd
        · rfl]
      norm_num
    · left
      norm_num

instance : IsTrans FSNode VirtualFileSystem.listDirLe := ⟨listDirLe_trans⟩

instance : IsTotal FSNode VirtualFileSystem.listDirLe := ⟨listDirLe_total⟩

/-- Whether the `listDirectory` target resolves to an existing directory. -/
def dirAtTarget (s : VirtualFileSystem) (path : Option (List Char)) : Bool :=
  isSomeDir (VirtualFileSystem.getNodeByPath s.root (s.listTarget path))

/-- Whether the `listDirectory` target is a directory whose children map is
well-formed: no duplicate keys and every child's `name` equals its key
(the §3 invariant, maintained by all documented operations). -/
def targetChildrenOk (s : VirtualFileSystem) (path : Option (List Char)) : Bool :=
  match VirtualFileSystem.getNodeByPath s.root (s.listTarget path) with
  | some (FSNode.dir _ _ ch) =>
    decide ((ch.map Prod.fst).Nodup) && ch.all (fun e => FSNode.name e.2 == e.1)
  | _ => false

/-- C6: for every existing directory (with the documented unique-children
invariant), `listDirectory` returns a list with no duplicate names, all
directories before all files, and within each group strictly sorted by the
case-sensitive lexicographic name comparison; for a missing or
non-directory target it returns the empty list. -/
theorem c6_listDirectory_order :
    (∀ (s : VirtualFileSystem) (p : Option (List Char)), targetChildrenOk s p = true →
      ((s.listDirectory p).map FSNode.name).Nodup ∧
      (s.listDirectory p).Pairwise (fun a b =>
        (a.isDir = true ∧ b.isDir = false) ∨
        (a.isDir = b.isDir ∧ VirtualFileSystem.compareChars a.name b.name < 0))) ∧
    (∀ (s : VirtualFileSystem) (p : Option (List Char)), dirAtTarget s p = false →
      s.listDirectory p = []) := by
  constructor
  · intro s p h
    unfold targetChildrenOk at h
    cases hn : VirtualFileSystem.getNodeByPath s.root (s.listTarget p) with
    | none => rw [hn] at h; exact absurd h (by simp)
    | some node =>
      cases node with
      | file a b c d => rw [hn] at h; exact absurd h (by simp)
      | dir dn dp ch =>
        rw [hn] at h
        dsimp only at h
        rw [Bool.and_eq_true] at h
        have hnd : (ch.map Prod.fst).Nodup := of_decide_eq_true h.1
        have hnames : ∀ e ∈ ch, FSNode.name e.2 = e.1 := by
          intro e he
          exact eq_of_beq (List.all_eq_true.mp h.2 e he)
        have hlist : s.listDirectory p =
            List.insertionSort VirtualFileSystem.listDirLe (ch.map Prod.snd) := by
          unfold VirtualFileSystem.listDirectory
          rw [hn]
        have hperm := List.perm_insertionSort VirtualFileSystem.listDirLe (ch.map Prod.snd)
        have hmapperm := hperm.map FSNode.name
        have hmapeq : (ch.map Prod.snd).map FSNode.name = ch.map Prod.fst := by
          rw [List.map_map]
          exact List.map_congr_left (fun e he => hnames e he)
        rw [hmapeq] at hmapperm
        have hnodup₂ :
            ((List.insertionSort VirtualFileSystem.listDirLe
              (ch.map Prod.snd)).map FSNode.name).Nodup :=
          hmapperm.nodup_iff.mpr hnd
        have hsorted :=
          List.sorted_insertionSort VirtualFileSystem.listDirLe (ch.map Prod.snd)
        have hnePairwise :
            (List.insertionSort VirtualFileSystem.listDirLe (ch.map Prod.snd)).Pairwise
              (fun a b => FSNode.name a ≠ FSNode.name b) :=
          List.pairwise_map.mp hnodup₂
        constructor
        · rw [hlist]
          exact hnodup₂
        · rw [hlist]
          refine List.Pairwise.imp ?_ (hsorted.and hnePairwise)
          rintro a b ⟨hle, hne⟩
          unfold VirtualFileSystem.listDirLe VirtualFileSystem.listDirCompare at hle
          by_cases hd : a.isDir = b.isDir
          · right
            refine ⟨hd, ?_⟩
            rw [if_neg (by simp [hd])] at hle
            exact compareChars_lt_of_le_ne _ _ hle hne
          · left
            rw [if_pos hd] at hle
            cases ha : a.isDir
            · rw [ha] at hle
              norm_num at hle
            · refine ⟨rfl, ?_⟩
              cases hb : b.isDir
              · rfl
              · exact absurd (ha.trans hb.symm) hd
  · intro s p h
    unfold dirAtTarget at h
    unfold VirtualFileSystem.listDirectory
    cases hn : VirtualFileSystem.getNodeByPath s.root (s.listTarget p) with
    | none => rfl
    | some node =>
      cases node with
      | file a b c d => rfl
      | dir dn dp ch =>
        rw [hn] at h
        exact absurd h (by simp [isSomeDir])

/-- C6 witness: the seeded `/home/user` directory and a missing target. -/
theorem c6_listDirectory_order_witness :
    ((VirtualFileSystem.listDirectory initialVFS (some (str "/home/user"))).map
      FSNode.name).Nodup ∧
    (VirtualFileSystem.listDirectory initialVFS (some (str "/home/user"))).Pairwise
      (fun a b =>
        (a.isDir = true ∧ b.isDir = false) ∨
        (a.isDir = b.isDir ∧ VirtualFileSystem.compareChars a.name b.name < 0)) ∧
    VirtualFileSystem.listDirectory initialVFS (some (str "/nope")) = [] :=
  ⟨(c6_listDirectory_order.1 initialVFS (some (str "/home/user")) (by decide)).1,
   (c6_listDirectory_order.1 initialVFS (some (str "/home/user")) (by decide)).2,
   c6_listDirectory_order.2 initialVFS (some (str "/nope")) (by decide)⟩
